import Mathlib

/-!
# Verification of the cloudflare-mcp core against its specification

A shallow embedding of the repository's core logic:

* `src/truncate.ts` — the response truncator (`truncateResponse`);
* `src/executor.ts` — the sandboxed code-execution gateway
  (`createCodeExecutor`): the injected worker-module source text (the
  "build recipe"), the tri-state collect record produced by `evaluate`,
  the gateway's error propagation, and the injected `cloudflare.request`
  capability's response handling;
* `src/server.ts` — `resolveAccountId` (account disambiguation) and the
  tool-boundary error formatting of the `execute` tool;
* `scripts/build-spec.ts` — `resolveRefs`, the cycle-safe reference
  resolver for the OpenAPI schema document.

JavaScript runtime values are modelled by the inductive type `JSValue`
(`undefined` models the JavaScript value `undefined`).  JavaScript strings
are modelled at the character level (UTF-16 surrogate-pair subtleties
are out of scope).  Mutable state (the resolver's `seen` set) is
modelled by explicit state passing; general recursion is modelled with
a fuel parameter, with termination proved by exhibiting sufficient fuel.
-/

/-- A JavaScript runtime value, as far as the modelled code observes it.
`undefined` is JavaScript's `undefined`; objects are ordered field lists
(insertion order, as `Object.entries` iterates them); numbers are
restricted to integers, which covers every numeric value the modelled
code manipulates (HTTP status codes, API error codes, lengths). -/
inductive JSValue where
  | undefined
  | null
  | bool (b : Bool)
  | num (n : Int)
  | str (s : String)
  | arr (xs : List JSValue)
  | obj (fields : List (String × JSValue))

/-- First binding of a key in an object's field list (JavaScript objects
cannot hold a key twice, so on faithful inputs this is the binding). -/
def lookupField : List (String × JSValue) → String → Option JSValue
  | [], _ => none
  | (k, v) :: rest, key => if k = key then some v else lookupField rest key

/-- Array indexing `xs[key]` by a property key: an element is returned
exactly when the key is the canonical decimal form of an index. -/
def jsIndex (xs : List JSValue) (key : String) : JSValue :=
  key.toNat?.elim .undefined fun i =>
    if toString i = key then xs.getD i .undefined else .undefined

/-- Property access `v?.[key]` / `v[key]` as the modelled code uses it:
field lookup on objects, canonical numeric indexing on arrays, and
`undefined` in every other case (including access on `null`/`undefined`,
which the sources only perform through optional chaining). -/
def jsGet (v : JSValue) (key : String) : JSValue :=
  match v with
  | .obj fs => (lookupField fs key).getD .undefined
  | .arr xs => jsIndex xs key
  | _ => .undefined

/-- JavaScript truthiness of a value. -/
def jsTruthy : JSValue → Bool
  | .undefined => false
  | .null => false
  | .bool b => b
  | .num n => n != 0
  | .str s => !s.isEmpty
  | .arr _ => true
  | .obj _ => true

/-- The nullish-coalescing operator `a ?? b`. -/
def nullishOr (a b : JSValue) : JSValue :=
  match a with
  | .undefined => b
  | .null => b
  | x => x

mutual
/-- JavaScript string coercion (template literals, `String(x)`,
string `+`).  Array elements are joined by commas with `null` and
`undefined` elements rendered empty, objects render as
`[object Object]`. -/
def jsToString : JSValue → String
  | .undefined => "undefined"
  | .null => "null"
  | .bool b => cond b "true" "false"
  | .num n => toString n
  | .str s => s
  | .arr xs => jsToStringList xs
  | .obj _ => "[object Object]"

def jsToStringList : List JSValue → String
  | [] => ""
  | x :: xs =>
    (match x with
     | .undefined => ""
     | .null => ""
     | v => jsToString v) ++
    (match xs with
     | [] => ""
     | _ => "," ++ jsToStringList xs)
end

/-- `pat` occurs as a contiguous run inside `s` (character lists). -/
def listContainsSub (pat s : List Char) : Bool :=
  match s with
  | [] => pat.isEmpty
  | _ :: rest => pat.isPrefixOf s || listContainsSub pat rest

/-- JavaScript `s.includes(pat)` for strings. -/
def containsSubstr (s pat : String) : Bool := listContainsSub pat.data s.data

/-- `pat` occurs as a substring of `s` (propositional form). -/
def SubstrOf (pat s : String) : Prop := ∃ a b, s = a ++ pat ++ b

/-- Digit grouping: walking the reversed digit string, a comma is
inserted every three digits. -/
def commaRevAux : List Char → Nat → List Char
  | [], _ => []
  | c :: cs, i =>
    (if 0 < i ∧ i % 3 = 0 then [','] else []) ++ c :: commaRevAux cs (i + 1)

/-- `Number.prototype.toLocaleString()` for a nonnegative integer under
the default (en-US) locale: decimal digits in groups of three separated
by commas, e.g. `25000 ↦ "25,000"`. -/
def toLocaleString (n : Nat) : String :=
  String.mk (commaRevAux (toString n).data.reverse 0).reverse

/-- `Math.ceil(a / b)` for nonnegative integers `a` and positive `b`
(the floating-point division is exact in every use the sources make of
it, so the integer model is faithful). -/
def mathCeilDiv (a b : Nat) : Nat := (a + b - 1) / b

/-! ## `src/truncate.ts` — the response truncator -/

def CHARS_PER_TOKEN : Nat := 4

def MAX_TOKENS : Nat := 6000

def MAX_CHARS : Nat := MAX_TOKENS * CHARS_PER_TOKEN

/-- The string-level body of `truncateResponse` (`src/truncate.ts`,
lines 8–15): texts within the character budget pass through unchanged,
longer texts are cut at `MAX_CHARS` characters and suffixed with the
marker line, whose token estimate is `Math.ceil(text.length / 4)`
computed from the untruncated length. -/
def truncateText (text : String) : String :=
  if text.length ≤ MAX_CHARS then
    text
  else
    let truncated := text.take MAX_CHARS
    let estimatedTokens := mathCeilDiv text.length CHARS_PER_TOKEN
    truncated ++ "\n\n--- TRUNCATED ---\nResponse was ~" ++
      toLocaleString estimatedTokens ++ " tokens (limit: " ++
      toLocaleString MAX_TOKENS ++ "). Use more specific queries to reduce response size."

/-- JSON string quoting as `JSON.stringify` performs it on a string
value: wrap in double quotes, escape `"` and backslash, use the short
escapes for the common control characters and `\u00XX` for the rest. -/
def jsonEscapeChar (c : Char) : String :=
  if c = '"' then "\\\""
  else if c = '\\' then "\\\\"
  else if c = '\n' then "\\n"
  else if c = '\r' then "\\r"
  else if c = '\t' then "\\t"
  else if c = '\x08' then "\\b"
  else if c = '\x0c' then "\\f"
  else if c.toNat < 0x20 then
    "\\u00" ++ String.mk [(Nat.digitChar (c.toNat / 16)), (Nat.digitChar (c.toNat % 16))]
  else String.singleton c

def jsonQuote (s : String) : String :=
  "\"" ++ String.join (s.data.map jsonEscapeChar) ++ "\""

mutual
/-- `JSON.stringify(v, null, 2)` with the current indentation prefix
`ind`: `none` models the JavaScript result `undefined` (top-level
`undefined` input); inside arrays an unserializable element renders as
`null`, inside objects the pair is dropped. -/
def jsonStringifyIndent (ind : String) : JSValue → Option String
  | .undefined => none
  | .null => some "null"
  | .bool b => some (cond b "true" "false")
  | .num n => some (toString n)
  | .str s => some (jsonQuote s)
  | .arr xs =>
    match xs with
    | [] => some "[]"
    | _ :: _ => some ("[\n" ++ jsonStringifyItems (ind ++ "  ") xs ++ "\n" ++ ind ++ "]")
  | .obj fs =>
    match jsonStringifyPairs (ind ++ "  ") fs with
    | [] => some "\x7b\x7d"
    | p :: ps => some ("\x7b\n" ++ String.intercalate ",\n" (p :: ps) ++ "\n" ++ ind ++ "\x7d")

def jsonStringifyItems (ind : String) : List JSValue → String
  | [] => ""
  | [x] => ind ++ (jsonStringifyIndent ind x).getD "null"
  | x :: y :: xs =>
    ind ++ (jsonStringifyIndent ind x).getD "null" ++ ",\n" ++ jsonStringifyItems ind (y :: xs)

def jsonStringifyPairs (ind : String) : List (String × JSValue) → List String
  | [] => []
  | (k, v) :: fs =>
    match jsonStringifyIndent ind v with
    | none => jsonStringifyPairs ind fs
    | some s => (ind ++ jsonQuote k ++ ": " ++ s) :: jsonStringifyPairs ind fs
end

/-- Line 6 of `src/truncate.ts`: strings pass through, any other value
is serialized with `JSON.stringify(content, null, 2)`.  The result is
`none` exactly when `JSON.stringify` yields no string (input
`undefined`), in which case the subsequent `text.length` access in the
source throws a `TypeError`. -/
def serializeContent : JSValue → Option String
  | .str s => some s
  | v => jsonStringifyIndent "" v

/-- `truncateResponse` (`src/truncate.ts`): `none` models the thrown
`TypeError` on an input with no JSON serialization. -/
def truncateResponse (content : JSValue) : Option String :=
  (serializeContent content).map truncateText
/-! ## `src/executor.ts` — the sandboxed execution gateway -/

/-- Literal text of the injected worker module (`src/executor.ts`,
lines 28–102) up to the first interpolation `${JSON.stringify(apiBase)}`. -/
def recipeSegA : String :=
  "\nimport \x7b WorkerEntrypoint \x7d from \"cloudflare:workers\";\n\nconst apiBase = "

/-- Recipe text between the `apiBase` and `accountId` interpolations. -/
def recipeSegB : String :=
  ";\nconst accountId = "

/-- Recipe text between the `accountId` interpolation and the spliced
caller script `${code}`. -/
def recipeSegC : String :=
  ";\n\nexport default class CodeExecutor extends WorkerEntrypoint \x7b\n  async evaluate(apiToken) \x7b\n    const cloudflare = \x7b\n      async request(options) \x7b\n        const \x7b method, path, query, body, contentType, rawBody \x7d = options;\n\n        const url = new URL(apiBase + path);\n        if (query) \x7b\n          for (const [key, value] of Object.entries(query)) \x7b\n            if (value !== undefined) \x7b\n              url.searchParams.set(key, String(value));\n            \x7d\n          \x7d\n        \x7d\n\n        const headers = \x7b\n          \"Authorization\": \"Bearer \" + apiToken,\n        \x7d;\n\n        if (contentType) \x7b\n          headers[\"Content-Type\"] = contentType;\n        \x7d else if (body && !rawBody) \x7b\n          headers[\"Content-Type\"] = \"application/json\";\n        \x7d\n\n        let requestBody;\n        if (rawBody) \x7b\n          requestBody = body;\n        \x7d else if (body) \x7b\n          requestBody = JSON.stringify(body);\n        \x7d\n\n        const response = await fetch(url.toString(), \x7b\n          method,\n          headers,\n          body: requestBody,\n        \x7d);\n\n        const responseContentType = response.headers.get(\"content-type\") || \"\";\n\n        // Handle non-JSON responses (e.g., KV values)\n        if (!responseContentType.includes(\"application/json\")) \x7b\n          const text = await response.text();\n          if (!response.ok) \x7b\n            throw new Error(\"Cloudflare API error: \" + response.status + \" \" + text);\n          \x7d\n          return \x7b success: true, result: text \x7d;\n        \x7d\n\n        const data = await response.json();\n\n        if (!data.success) \x7b\n          const errors = data.errors.map(e => e.code + \": \" + e.message).join(\", \");\n          throw new Error(\"Cloudflare API error: \" + errors);\n        \x7d\n\n        return data;\n      \x7d\n    \x7d;\n\n    try \x7b\n      const result = await ("

/-- Recipe text after the spliced caller script. -/
def recipeSegD : String :=
  ")();\n      return \x7b result, err: undefined \x7d;\n    \x7d catch (err) \x7b\n      return \x7b result: undefined, err: err.message, stack: err.stack \x7d;\n    \x7d\n  \x7d\n\x7d\n        "


/-- The full injected worker-module source text ("build recipe") that
`createCodeExecutor` hands to the provisioning capability
(`env.LOADER.get`): the template literal of `src/executor.ts`
lines 28–102, with `JSON.stringify(apiBase)`,
`JSON.stringify(accountId)` and the caller script `code` spliced in. -/
def workerModuleSource (apiBase accountId code : String) : String :=
  recipeSegA ++ jsonQuote apiBase ++ recipeSegB ++ jsonQuote accountId ++
    recipeSegC ++ code ++ recipeSegD

/-- What the gateway submits per call: the build recipe given to the
provisioning capability, and the runtime argument of the single
`evaluate` (Invoke) call on the provisioned unit
(`src/executor.ts` line 108: `entrypoint.evaluate(apiToken)`).
The random per-call worker id is not modelled (no claim concerns it). -/
structure Submission where
  moduleSource : String
  invokeArg : String

/-- The submission produced by the closure returned from
`createCodeExecutor env` when called as `(code, accountId, apiToken)`,
with `apiBase = env.CLOUDFLARE_API_BASE`. -/
def codeExecutorSubmission (apiBase code accountId apiToken : String) : Submission :=
  { moduleSource := workerModuleSource apiBase accountId code
    invokeArg := apiToken }

/-- Outcome of invoking the caller's script body inside the unit:
it either returns a value or throws an `Error` whose `.message` is
`msg`.  (Throwing a non-`Error` value, whose `.message` would be
`undefined`, is outside this model.) -/
inductive ScriptOutcome where
  | ret (v : JSValue)
  | thr (msg : String)

/-- The record `evaluate` sends back across the isolation boundary
(the `stack` field is advisory only and not modelled).  In the throw
branch the source assigns `result: undefined`. -/
structure CollectRecord where
  result : JSValue
  err : Option String

/-- The `try`/`catch` wrapper inside the injected module
(`src/executor.ts` lines 94–99). -/
def evaluateCollect : ScriptOutcome → CollectRecord
  | .ret v => { result := v, err := none }
  | .thr m => { result := .undefined, err := some m }

/-- The gateway's collect step (`src/executor.ts` lines 110–114):
`if (response.err) throw new Error(response.err); return
response.result;`.  Note the truthiness test: an *empty* `err` string
is falsy, so it does not raise. -/
def gatewayResult (r : CollectRecord) : Except String JSValue :=
  match r.err with
  | some m => if m.isEmpty then .ok r.result else .error m
  | none => .ok r.result

/-- An upstream HTTP response as the injected `cloudflare.request`
capability observes it: `contentType` is
`response.headers.get("content-type") || ""`, `textBody` is what
`response.text()` yields, `jsonBody` what `response.json()` yields.
A body whose JSON parse would fail is outside this model (no claim
concerns it), so the two body views coexist and only one is consumed
on any given path. -/
structure HttpResponse where
  status : Nat
  contentType : String
  textBody : String
  jsonBody : JSValue

/-- `Response.ok`: status in the inclusive range 200–299. -/
def responseOk (status : Nat) : Bool := 200 ≤ status && status ≤ 299

/-- `data.errors.map(e => e.code + ": " + e.message).join(", ")` —
shared verbatim between the injected capability
(`src/executor.ts` line 86) and `resolveAccountId`
(`src/server.ts` line 32). -/
def joinedApiErrors (errs : List JSValue) : String :=
  String.intercalate ", "
    (errs.map fun e => jsToString (jsGet e "code") ++ ": " ++ jsToString (jsGet e "message"))

/-- Response handling of the injected `cloudflare.request` capability
(`src/executor.ts` lines 72–91).  The URL/header/body construction
that precedes the `fetch` (lines 38–70) does not affect any claim and
is not modelled.  A `success:false` envelope whose `errors` field is
not an array would make the JavaScript `.map` call throw a `TypeError`;
that thrown failure is modelled by the dedicated error branch. -/
def handleCloudflareResponse (resp : HttpResponse) : Except String JSValue :=
  if !containsSubstr resp.contentType "application/json" then
    if !responseOk resp.status then
      .error ("Cloudflare API error: " ++ toString resp.status ++ " " ++ resp.textBody)
    else
      .ok (.obj [("success", .bool true), ("result", .str resp.textBody)])
  else
    let data := resp.jsonBody
    if !jsTruthy (jsGet data "success") then
      match jsGet data "errors" with
      | .arr es => .error ("Cloudflare API error: " ++ joinedApiErrors es)
      | _ => .error "TypeError: data.errors.map is not a function"
    else
      .ok data

/-- Outcome of a caller script of the form
`async () => cloudflare.request({...})` whose single request receives
the upstream response `resp`: an error thrown by the capability
propagates to the `catch` in `evaluate` and becomes the script's
thrown message. -/
def scriptViaRequest (resp : HttpResponse) : ScriptOutcome :=
  match handleCloudflareResponse resp with
  | .ok v => .ret v
  | .error m => .thr m

/-- The `execute` tool's boundary (`src/server.ts` lines 206–215 /
244–251): a successful result is truncated into the text payload with
the error flag clear; a thrown `Error` becomes
`"Error: " ++ message` with the error flag set (`formatError`).
`truncateResponse` itself throwing on an `undefined` result (modelled
by `none`) is caught by the same `catch`, yielding the V8 `TypeError`
message. -/
def formatToolResult (r : Except String JSValue) : String × Bool :=
  match r with
  | .error m => ("Error: " ++ m, true)
  | .ok v =>
    match truncateResponse v with
    | some s => (s, false)
    | none => ("Error: Cannot read properties of undefined (reading \x27length\x27)", true)

/-- End-to-end `execute` pipeline for a script that proxies one request
receiving `resp`: worker capability → `evaluate` collect record →
gateway → tool boundary.  Returns the textual payload and the
`isError` flag. -/
def executeToolText (resp : HttpResponse) : String × Bool :=
  formatToolResult (gatewayResult (evaluateCollect (scriptViaRequest resp)))

/-! ## `src/server.ts` — `resolveAccountId` -/

/-- One candidate line of the ambiguous-account summary
(`src/server.ts` line 46):
`` `${account.id ?? "unknown"} (${account.name ?? ""})` ``. -/
def accountSummaryEntry (a : JSValue) : String :=
  jsToString (nullishOr (jsGet a "id") (.str "unknown")) ++ " (" ++
    jsToString (nullishOr (jsGet a "name") (.str "")) ++ ")"

/-- `data.result.slice(0, 5).map(...).join(", ")`
(`src/server.ts` lines 44–47). -/
def accountSummary (xs : List JSValue) : String :=
  String.intercalate ", " ((xs.take 5).map accountSummaryEntry)

/-- The envelope-handling logic of `resolveAccountId`
(`src/server.ts` lines 31–52), starting from the decoded JSON `data`
(the fetch and content-type guard of lines 12–23 precede this and are
not needed by any claim).  Mirrors the source's truthiness tests:
`!data.success`, `!Array.isArray(data.result) || length === 0`,
`length === 1 && data.result[0]?.id`. -/
def resolveAccountId (data : JSValue) : Except String JSValue :=
  if !jsTruthy (jsGet data "success") then
    match jsGet data "errors" with
    | .arr es => .error ("Cloudflare API error: " ++ joinedApiErrors es)
    | _ => .error "TypeError: data.errors.map is not a function"
  else
    match jsGet data "result" with
    | .arr xs =>
      if xs.length = 0 then
        .error "No Cloudflare accounts found for this token."
      else if xs.length = 1 && jsTruthy (jsGet (xs.getD 0 .undefined) "id") then
        .ok (jsGet (xs.getD 0 .undefined) "id")
      else
        .error ("Multiple Cloudflare accounts found. Provide account_id to select one. Found: "
          ++ accountSummary xs)
    | _ => .error "No Cloudflare accounts found for this token."

/-! ## `scripts/build-spec.ts` — the reference resolver -/

/-- Remove the first occurrence of `pat` from a character list
(JavaScript `s.replace(pat, "")` for a plain-string pattern replaces
only the first occurrence). -/
def removeFirstOcc (pat : List Char) : List Char → List Char
  | [] => []
  | c :: rest =>
    if pat.isPrefixOf (c :: rest) then (c :: rest).drop pat.length
    else c :: removeFirstOcc pat rest

/-- JavaScript `s.split(sep)` for a single separator character:
splitting an empty string yields one empty group. -/
def splitOnChar (sep : Char) : List Char → List (List Char)
  | [] => [[]]
  | c :: rest =>
    if c = sep then [] :: splitOnChar sep rest
    else
      match splitOnChar sep rest with
      | [] => [[c]]
      | g :: gs => (c :: g) :: gs

/-- `ref.replace("#/", "").split("/")` (`scripts/build-spec.ts`
line 157). -/
def refParts (ref : String) : List String :=
  (splitOnChar '/' (removeFirstOcc "#/".data ref.data)).map String.mk

/-- The pointer walk of lines 158–161: successive key lookups through
the parts, starting from the whole spec document (each step is
`resolved?.[part]`). -/
def resolvePointer (spec : JSValue) (ref : String) : JSValue :=
  (refParts ref).foldl jsGet spec

mutual
/-- `resolveRefs(obj, spec, seen)` (`scripts/build-spec.ts` lines
145–170), with the mutable `seen` set threaded as explicit state (the
same JavaScript `Set` object is shared by every recursive call, so
additions made while resolving one branch are visible to later sibling
branches) and a fuel parameter standing in for the unbounded recursion:
`some (resolved, seen')` when the computation completes within `fuel`
nested calls, `none` otherwise.  Sufficient fuel always exists (theorem
for claim C3 below). -/
def resolveRefs : Nat → JSValue → JSValue → List String → Option (JSValue × List String)
  | 0, _, _, _ => none
  | fuel + 1, v, spec, seen =>
    match v with
    | .obj fs =>
      match lookupField fs "$ref" with
      | some (.str r) =>
        if seen.contains r then
          some (.obj [("$circular", .str r)], seen)
        else
          resolveRefs fuel (resolvePointer spec r) spec (r :: seen)
      | _ => (resolveJsonFields fuel fs spec seen).map fun p => (JSValue.obj p.1, p.2)
    | .arr xs => (resolveJsonList fuel xs spec seen).map fun p => (JSValue.arr p.1, p.2)
    | x => some (x, seen)

/-- `obj.map(item => resolveRefs(item, spec, seen))` — elements in
order, threading the shared `seen` set. -/
def resolveJsonList : Nat → List JSValue → JSValue → List String →
    Option (List JSValue × List String)
  | 0, _, _, _ => none
  | _ + 1, [], _, seen => some ([], seen)
  | fuel + 1, x :: xs, spec, seen =>
    (resolveRefs fuel x spec seen).bind fun p =>
      (resolveJsonList fuel xs spec p.2).map fun q => (p.1 :: q.1, q.2)

/-- The `Object.entries` copy loop of lines 165–169, threading the
shared `seen` set. -/
def resolveJsonFields : Nat → List (String × JSValue) → JSValue → List String →
    Option (List (String × JSValue) × List String)
  | 0, _, _, _ => none
  | _ + 1, [], _, seen => some ([], seen)
  | fuel + 1, (k, v) :: fs, spec, seen =>
    (resolveRefs fuel v spec seen).bind fun p =>
      (resolveJsonFields fuel fs spec p.2).map fun q => ((k, p.1) :: q.1, q.2)
end

/-- The singleton ref set of a string value (helper for `refsIn`). -/
def strAsRef : JSValue → Finset String
  | .str r => {r}
  | _ => ∅

mutual
/-- Every string occurring in `$ref` position anywhere inside a value:
an upper bound on the pointers `resolveRefs` can ever expand while
traversing it. -/
def refsIn : JSValue → Finset String
  | .arr xs => refsInList xs
  | .obj fs => refsInFields fs
  | _ => ∅

def refsInList : List JSValue → Finset String
  | [] => ∅
  | x :: xs => refsIn x ∪ refsInList xs

def refsInFields : List (String × JSValue) → Finset String
  | [] => ∅
  | (k, v) :: fs => (if k = "$ref" then strAsRef v else ∅) ∪ refsIn v ∪ refsInFields fs
end

mutual
/-- Structural nesting depth of a value (≥ 1), the bound on the purely
structural recursion of `resolveRefs`. -/
def jsDepth : JSValue → Nat
  | .arr xs => jsListDepth xs + 1
  | .obj fs => jsFieldsDepth fs + 1
  | _ => 1

def jsListDepth : List JSValue → Nat
  | [] => 1
  | x :: xs => max (jsDepth x) (jsListDepth xs) + 1

def jsFieldsDepth : List (String × JSValue) → Nat
  | [] => 1
  | (_, v) :: fs => max (jsDepth v) (jsFieldsDepth fs) + 1
end

/-- Pointers that could still be expanded while resolving `v` against
`spec`: refs of `v` or `spec` not yet in `seen`. -/
def newRefs (v spec : JSValue) (seen : List String) : Finset String :=
  (refsIn v ∪ refsIn spec).filter (fun r => r ∉ seen)

def newRefsList (xs : List JSValue) (spec : JSValue) (seen : List String) : Finset String :=
  (refsInList xs ∪ refsIn spec).filter (fun r => r ∉ seen)

def newRefsFields (fs : List (String × JSValue)) (spec : JSValue) (seen : List String) :
    Finset String :=
  (refsInFields fs ∪ refsIn spec).filter (fun r => r ∉ seen)

/-- A document with two *sibling* reference nodes pointing at the same
target; neither occurrence is an ancestor of the other, and the
document is entirely cycle-free. -/
def siblingRefDoc : JSValue :=
  JSValue.obj [("x", JSValue.obj [("$ref", JSValue.str "#/defs/A")]),
               ("y", JSValue.obj [("$ref", JSValue.str "#/defs/A")])]

/-- The spec document for `siblingRefDoc`: `#/defs/A` is an ordinary
content node. -/
def siblingRefSpec : JSValue :=
  JSValue.obj [("defs", JSValue.obj [("A", JSValue.obj [("type", JSValue.str "string")])])]

theorem one_le_jsDepth (v : JSValue) : 1 ≤ jsDepth v := by
  cases v <;> simp [jsDepth]

theorem one_le_jsListDepth (xs : List JSValue) : 1 ≤ jsListDepth xs := by
  cases xs <;> simp [jsListDepth]

theorem one_le_jsFieldsDepth (fs : List (String × JSValue)) : 1 ≤ jsFieldsDepth fs := by
  cases fs with
  | nil => simp [jsFieldsDepth]
  | cons kv rest => obtain ⟨k, v⟩ := kv; simp [jsFieldsDepth]

theorem refsIn_lookupField :
    ∀ {fs : List (String × JSValue)} {k : String} {w : JSValue},
      lookupField fs k = some w → refsIn w ⊆ refsInFields fs := by
  intro fs
  induction fs with
  | nil => intro k w h; simp [lookupField] at h
  | cons kv rest ih =>
    intro k w h
    obtain ⟨k', v'⟩ := kv
    rw [lookupField] at h
    split at h
    · cases h
      intro x hx
      simp only [refsInFields]
      exact Finset.mem_union_left _ (Finset.mem_union_right _ hx)
    · intro x hx
      simp only [refsInFields]
      exact Finset.mem_union_right _ (ih h hx)

theorem refsIn_getD :
    ∀ (xs : List JSValue) (i : Nat), refsIn (xs.getD i .undefined) ⊆ refsInList xs := by
  intro xs
  induction xs with
  | nil => intro i; simp [List.getD, refsIn]
  | cons x rest ih =>
    intro i
    cases i with
    | zero =>
      intro a ha
      simp only [refsInList]
      exact Finset.mem_union_left _ (by simpa using ha)
    | succ j =>
      intro a ha
      simp only [refsInList]
      exact Finset.mem_union_right _ (ih j (by simpa using ha))

theorem refsIn_jsIndex (xs : List JSValue) (k : String) :
    refsIn (jsIndex xs k) ⊆ refsInList xs := by
  rw [jsIndex]
  rcases k.toNat? with _ | i
  · simp [Option.elim, refsIn]
  · simp only [Option.elim]
    split
    · exact refsIn_getD xs i
    · simp [refsIn]

theorem refsIn_jsGet (v : JSValue) (k : String) : refsIn (jsGet v k) ⊆ refsIn v := by
  cases v with
  | obj fs =>
    simp only [jsGet, refsIn]
    rcases hl : lookupField fs k with _ | w
    · simp [refsIn]
    · simp only [Option.getD_some]
      exact refsIn_lookupField hl
  | arr xs =>
    simp only [jsGet, refsIn]
    exact refsIn_jsIndex xs k
  | undefined => simp [jsGet, refsIn]
  | null => simp [jsGet, refsIn]
  | bool b => simp [jsGet, refsIn]
  | num n => simp [jsGet, refsIn]
  | str s => simp [jsGet, refsIn]

theorem refsIn_foldl_jsGet :
    ∀ (parts : List String) (v : JSValue), refsIn (parts.foldl jsGet v) ⊆ refsIn v := by
  intro parts
  induction parts with
  | nil => intro v; simp
  | cons p rest ih =>
    intro v
    simp only [List.foldl]
    exact fun x hx => refsIn_jsGet v p (ih (jsGet v p) hx)

theorem refsIn_resolvePointer (spec : JSValue) (r : String) :
    refsIn (resolvePointer spec r) ⊆ refsIn spec :=
  refsIn_foldl_jsGet (refParts r) spec

theorem mem_refsInFields_of_lookup_ref :
    ∀ {fs : List (String × JSValue)} {r : String},
      lookupField fs "$ref" = some (.str r) → r ∈ refsInFields fs := by
  intro fs
  induction fs with
  | nil => intro r h; simp [lookupField] at h
  | cons kv rest ih =>
    intro r h
    obtain ⟨k', v'⟩ := kv
    rw [lookupField] at h
    split at h
    · cases h
      simp only [refsInFields]
      refine Finset.mem_union_left _ (Finset.mem_union_left _ ?_)
      rename_i hk
      simp [hk, strAsRef]
    · simp only [refsInFields]
      exact Finset.mem_union_right _ (ih h)

theorem jsDepth_lookupField :
    ∀ {fs : List (String × JSValue)} {k : String} {w : JSValue},
      lookupField fs k = some w → jsDepth w ≤ jsFieldsDepth fs := by
  intro fs
  induction fs with
  | nil => intro k w h; simp [lookupField] at h
  | cons kv rest ih =>
    intro k w h
    obtain ⟨k', v'⟩ := kv
    rw [lookupField] at h
    split at h
    · cases h
      simp only [jsFieldsDepth]
      have h1 := Nat.le_max_left (jsDepth w) (jsFieldsDepth rest)
      omega
    · have h1 := ih h
      simp only [jsFieldsDepth]
      have h2 := Nat.le_max_right (jsDepth v') (jsFieldsDepth rest)
      omega

theorem jsDepth_getD :
    ∀ (xs : List JSValue) (i : Nat), jsDepth (xs.getD i .undefined) ≤ jsListDepth xs := by
  intro xs
  induction xs with
  | nil => intro i; simp [List.getD, jsDepth, jsListDepth]
  | cons x rest ih =>
    intro i
    cases i with
    | zero =>
      have h1 := Nat.le_max_left (jsDepth x) (jsListDepth rest)
      have h2 : (x :: rest).getD 0 .undefined = x := rfl
      rw [h2]
      simp only [jsListDepth]
      omega
    | succ j =>
      have h1 := ih j
      have h2 := Nat.le_max_right (jsDepth x) (jsListDepth rest)
      have h3 : (x :: rest).getD (j + 1) .undefined = rest.getD j .undefined := rfl
      rw [h3]
      simp only [jsListDepth]
      omega

theorem jsDepth_jsIndex (xs : List JSValue) (k : String) :
    jsDepth (jsIndex xs k) ≤ jsListDepth xs + 1 := by
  rw [jsIndex]
  rcases k.toNat? with _ | i
  · have := one_le_jsListDepth xs
    simp only [Option.elim, jsDepth]
    omega
  · simp only [Option.elim]
    split
    · have h1 := jsDepth_getD xs i
      omega
    · have := one_le_jsListDepth xs
      simp only [jsDepth]
      omega

theorem jsDepth_jsGet (v : JSValue) (k : String) : jsDepth (jsGet v k) ≤ jsDepth v := by
  cases v with
  | obj fs =>
    simp only [jsGet, jsDepth]
    rcases hl : lookupField fs k with _ | w
    · have := one_le_jsFieldsDepth fs
      simp only [Option.getD_none, jsDepth]
      omega
    · simp only [Option.getD_some]
      have h1 := jsDepth_lookupField hl
      omega
  | arr xs =>
    simp only [jsGet, jsDepth]
    exact jsDepth_jsIndex xs k
  | undefined => simp [jsGet, jsDepth]
  | null => simp [jsGet, jsDepth]
  | bool b => simp [jsGet, jsDepth]
  | num n => simp [jsGet, jsDepth]
  | str s => simp [jsGet, jsDepth]

theorem jsDepth_foldl_jsGet :
    ∀ (parts : List String) (v : JSValue), jsDepth (parts.foldl jsGet v) ≤ jsDepth v := by
  intro parts
  induction parts with
  | nil => intro v; simp
  | cons p rest ih =>
    intro v
    simp only [List.foldl]
    exact le_trans (ih (jsGet v p)) (jsDepth_jsGet v p)

theorem jsDepth_resolvePointer (spec : JSValue) (r : String) :
    jsDepth (resolvePointer spec r) ≤ jsDepth spec :=
  jsDepth_foldl_jsGet (refParts r) spec

/-- The threaded `seen` set only ever grows: a pointer added when its
expansion begins is never removed, not even after that expansion
completes. -/
theorem resolve_seen_mono :
    ∀ fuel : Nat,
      (∀ v spec seen out, resolveRefs fuel v spec seen = some out → seen ⊆ out.2) ∧
      (∀ xs spec seen out, resolveJsonList fuel xs spec seen = some out → seen ⊆ out.2) ∧
      (∀ fs spec seen out, resolveJsonFields fuel fs spec seen = some out → seen ⊆ out.2) := by
  intro fuel
  induction fuel with
  | zero =>
    refine ⟨?_, ?_, ?_⟩ <;> intro a spec seen out h <;>
      simp [resolveRefs, resolveJsonList, resolveJsonFields] at h
  | succ n ih =>
    obtain ⟨ihV, ihL, ihF⟩ := ih
    refine ⟨?_, ?_, ?_⟩
    · intro v spec seen out h
      cases v with
      | obj fs =>
        rw [resolveRefs] at h
        split at h
        · split at h
          · cases h
            exact fun x hx => hx
          · exact fun x hx => ihV _ _ _ _ h (List.mem_cons_of_mem _ hx)
        · rcases hf : resolveJsonFields n fs spec seen with _ | p
          · rw [hf] at h; simp at h
          · rw [hf] at h
            simp only [Option.map_some'] at h
            cases h
            exact ihF _ _ _ _ hf
      | arr xs =>
        rw [resolveRefs] at h
        rcases hl2 : resolveJsonList n xs spec seen with _ | p
        · rw [hl2] at h; simp at h
        · rw [hl2] at h
          simp only [Option.map_some'] at h
          cases h
          exact ihL _ _ _ _ hl2
      | undefined => simp [resolveRefs] at h; cases h; exact fun x hx => hx
      | null => simp [resolveRefs] at h; cases h; exact fun x hx => hx
      | bool b => simp [resolveRefs] at h; cases h; exact fun x hx => hx
      | num m => simp [resolveRefs] at h; cases h; exact fun x hx => hx
      | str s => simp [resolveRefs] at h; cases h; exact fun x hx => hx
    · intro xs spec seen out h
      cases xs with
      | nil => simp [resolveJsonList] at h; cases h; exact fun x hx => hx
      | cons x rest =>
        rw [resolveJsonList] at h
        rcases hr : resolveRefs n x spec seen with _ | p
        · rw [hr] at h; simp at h
        · rw [hr] at h
          simp only [Option.some_bind] at h
          rcases hl2 : resolveJsonList n rest spec p.2 with _ | q
          · rw [hl2] at h; simp at h
          · rw [hl2] at h
            simp only [Option.map_some'] at h
            cases h
            exact fun x hx => ihL _ _ _ _ hl2 (ihV _ _ _ _ hr hx)
    · intro fs spec seen out h
      cases fs with
      | nil => simp [resolveJsonFields] at h; cases h; exact fun x hx => hx
      | cons kv rest =>
        obtain ⟨k, v⟩ := kv
        rw [resolveJsonFields] at h
        rcases hr : resolveRefs n v spec seen with _ | p
        · rw [hr] at h; simp at h
        · rw [hr] at h
          simp only [Option.some_bind] at h
          rcases hl2 : resolveJsonFields n rest spec p.2 with _ | q
          · rw [hl2] at h; simp at h
          · rw [hl2] at h
            simp only [Option.map_some'] at h
            cases h
            exact fun x hx => ihF _ _ _ _ hl2 (ihV _ _ _ _ hr hx)

/-- Expanding a fresh pointer strictly shrinks the set of pointers that
can still be expanded: the target's refs all come from the spec, and
the expanded pointer itself is newly excluded. -/
theorem newRefs_expand_lt {fs : List (String × JSValue)} {r : String}
    {spec : JSValue} {seen : List String}
    (hl : lookupField fs "$ref" = some (.str r)) (hr : r ∉ seen) :
    (newRefs (resolvePointer spec r) spec (r :: seen)).card + 1 ≤
      (newRefs (.obj fs) spec seen).card := by
  have hmem : r ∈ newRefs (.obj fs) spec seen := by
    rw [newRefs, Finset.mem_filter]
    constructor
    · apply Finset.mem_union_left
      simpa [refsIn] using mem_refsInFields_of_lookup_ref hl
    · exact hr
  have hsub : newRefs (resolvePointer spec r) spec (r :: seen) ⊆
      (newRefs (.obj fs) spec seen).erase r := by
    intro x hx
    rw [newRefs, Finset.mem_filter] at hx
    obtain ⟨hx1, hx2⟩ := hx
    have hxr : x ≠ r := fun hxr => hx2 (hxr ▸ List.mem_cons_self r seen)
    have hxseen : x ∉ seen := fun hm => hx2 (List.mem_cons_of_mem _ hm)
    rw [Finset.mem_erase]
    refine ⟨hxr, ?_⟩
    rw [newRefs, Finset.mem_filter]
    refine ⟨?_, hxseen⟩
    rcases Finset.mem_union.mp hx1 with hx1 | hx1
    · exact Finset.mem_union_right _ (refsIn_resolvePointer spec r hx1)
    · exact Finset.mem_union_right _ hx1
  have h1 := Finset.card_le_card hsub
  have h2 := Finset.card_erase_of_mem hmem
  have h3 : 0 < (newRefs (.obj fs) spec seen).card := Finset.card_pos.mpr ⟨r, hmem⟩
  omega

/-- Fuel exceeding `depth + (pending refs) · (spec depth + 1)` always
suffices for `resolveRefs` to complete. -/
theorem resolve_fuel_sufficient :
    ∀ fuel : Nat,
      (∀ v spec seen,
        jsDepth v + (newRefs v spec seen).card * (jsDepth spec + 1) < fuel →
        (resolveRefs fuel v spec seen).isSome) ∧
      (∀ xs spec seen,
        jsListDepth xs + (newRefsList xs spec seen).card * (jsDepth spec + 1) < fuel →
        (resolveJsonList fuel xs spec seen).isSome) ∧
      (∀ fs spec seen,
        jsFieldsDepth fs + (newRefsFields fs spec seen).card * (jsDepth spec + 1) < fuel →
        (resolveJsonFields fuel fs spec seen).isSome) := by
  intro fuel
  induction fuel with
  | zero =>
    refine ⟨?_, ?_, ?_⟩ <;> intro a spec seen h <;> exact (Nat.not_lt_zero _ h).elim
  | succ n ih =>
    obtain ⟨ihV, ihL, ihF⟩ := ih
    refine ⟨?_, ?_, ?_⟩
    · intro v spec seen hlt
      cases v with
      | obj fs =>
        rw [resolveRefs]
        split
        · next r heq =>
          split
          · simp
          · next hcon =>
            have hrnot : r ∉ seen := by simpa using hcon
            have hx := ihV (resolvePointer spec r) spec (r :: seen) (by
              have hcard := @newRefs_expand_lt fs r spec seen heq hrnot
              have hd := jsDepth_resolvePointer spec r
              have hone := one_le_jsDepth (JSValue.obj fs)
              have hmul : (newRefs (resolvePointer spec r) spec (r :: seen)).card *
                  (jsDepth spec + 1) + (jsDepth spec + 1) ≤
                  (newRefs (JSValue.obj fs) spec seen).card * (jsDepth spec + 1) := by
                have h1 := Nat.mul_le_mul_right (jsDepth spec + 1) hcard
                rw [add_mul, one_mul] at h1
                exact h1
              generalize (newRefs (resolvePointer spec r) spec (r :: seen)).card *
                (jsDepth spec + 1) = a at hmul ⊢
              generalize (newRefs (JSValue.obj fs) spec seen).card *
                (jsDepth spec + 1) = b at hmul hlt
              omega)
            exact hx
        · next =>
          have hrw : newRefs (JSValue.obj fs) spec seen = newRefsFields fs spec seen := by
            simp [newRefs, newRefsFields, refsIn]
          rw [hrw] at hlt
          simp only [jsDepth] at hlt
          have hf := ihF fs spec seen (by omega)
          rcases hfe : resolveJsonFields n fs spec seen with _ | p
          · rw [hfe] at hf; simp at hf
          · simp
      | arr xs =>
        rw [resolveRefs]
        have hrw : newRefs (JSValue.arr xs) spec seen = newRefsList xs spec seen := by
          simp [newRefs, newRefsList, refsIn]
        rw [hrw] at hlt
        simp only [jsDepth] at hlt
        have hl2 := ihL xs spec seen (by omega)
        rcases hfe : resolveJsonList n xs spec seen with _ | p
        · rw [hfe] at hl2; simp at hl2
        · simp
      | undefined => simp [resolveRefs]
      | null => simp [resolveRefs]
      | bool b => simp [resolveRefs]
      | num m => simp [resolveRefs]
      | str s => simp [resolveRefs]
    · intro xs spec seen hlt
      cases xs with
      | nil => simp [resolveJsonList]
      | cons x rest =>
        rw [resolveJsonList]
        have hx := ihV x spec seen (by
          have hsub : newRefs x spec seen ⊆ newRefsList (x :: rest) spec seen := by
            intro a ha
            rw [newRefs, Finset.mem_filter] at ha
            rw [newRefsList, Finset.mem_filter]
            refine ⟨?_, ha.2⟩
            rcases Finset.mem_union.mp ha.1 with h | h
            · refine Finset.mem_union_left _ ?_
              rw [refsInList]
              exact Finset.mem_union_left _ h
            · exact Finset.mem_union_right _ h
          have hcard := Finset.card_le_card hsub
          have hmul := Nat.mul_le_mul_right (jsDepth spec + 1) hcard
          have hd : jsDepth x + 1 ≤ jsListDepth (x :: rest) := by
            have := Nat.le_max_left (jsDepth x) (jsListDepth rest)
            simp only [jsListDepth]
            omega
          generalize (newRefs x spec seen).card * (jsDepth spec + 1) = a at hmul ⊢
          generalize (newRefsList (x :: rest) spec seen).card *
            (jsDepth spec + 1) = b at hmul hlt
          omega)
        rcases hxe : resolveRefs n x spec seen with _ | p
        · rw [hxe] at hx; simp at hx
        · simp only [Option.some_bind]
          have hmono := (resolve_seen_mono n).1 x spec seen p hxe
          have hrest := ihL rest spec p.2 (by
            have hsub : newRefsList rest spec p.2 ⊆ newRefsList (x :: rest) spec seen := by
              intro a ha
              rw [newRefsList, Finset.mem_filter] at ha ⊢
              refine ⟨?_, fun hm => ha.2 (hmono hm)⟩
              rcases Finset.mem_union.mp ha.1 with h | h
              · refine Finset.mem_union_left _ ?_
                rw [refsInList]
                exact Finset.mem_union_right _ h
              · exact Finset.mem_union_right _ h
            have hcard := Finset.card_le_card hsub
            have hmul := Nat.mul_le_mul_right (jsDepth spec + 1) hcard
            have hd : jsListDepth rest + 1 ≤ jsListDepth (x :: rest) := by
              have := Nat.le_max_right (jsDepth x) (jsListDepth rest)
              simp only [jsListDepth]
              omega
            generalize (newRefsList rest spec p.2).card * (jsDepth spec + 1) = a at hmul ⊢
            generalize (newRefsList (x :: rest) spec seen).card *
              (jsDepth spec + 1) = b at hmul hlt
            omega)
          rcases hre : resolveJsonList n rest spec p.2 with _ | q
          · rw [hre] at hrest; simp at hrest
          · simp
    · intro fs spec seen hlt
      cases fs with
      | nil => simp [resolveJsonFields]
      | cons kv rest =>
        obtain ⟨k, v⟩ := kv
        rw [resolveJsonFields]
        have hx := ihV v spec seen (by
          have hsub : newRefs v spec seen ⊆ newRefsFields ((k, v) :: rest) spec seen := by
            intro a ha
            rw [newRefs, Finset.mem_filter] at ha
            rw [newRefsFields, Finset.mem_filter]
            refine ⟨?_, ha.2⟩
            rcases Finset.mem_union.mp ha.1 with h | h
            · refine Finset.mem_union_left _ ?_
              rw [refsInFields]
              exact Finset.mem_union_left _ (Finset.mem_union_right _ h)
            · exact Finset.mem_union_right _ h
          have hcard := Finset.card_le_card hsub
          have hmul := Nat.mul_le_mul_right (jsDepth spec + 1) hcard
          have hd : jsDepth v + 1 ≤ jsFieldsDepth ((k, v) :: rest) := by
            have := Nat.le_max_left (jsDepth v) (jsFieldsDepth rest)
            simp only [jsFieldsDepth]
            omega
          generalize (newRefs v spec seen).card * (jsDepth spec + 1) = a at hmul ⊢
          generalize (newRefsFields ((k, v) :: rest) spec seen).card *
            (jsDepth spec + 1) = b at hmul hlt
          omega)
        rcases hxe : resolveRefs n v spec seen with _ | p
        · rw [hxe] at hx; simp at hx
        · simp only [Option.some_bind]
          have hmono := (resolve_seen_mono n).1 v spec seen p hxe
          have hrest := ihF rest spec p.2 (by
            have hsub : newRefsFields rest spec p.2 ⊆
                newRefsFields ((k, v) :: rest) spec seen := by
              intro a ha
              rw [newRefsFields, Finset.mem_filter] at ha ⊢
              refine ⟨?_, fun hm => ha.2 (hmono hm)⟩
              rcases Finset.mem_union.mp ha.1 with h | h
              · refine Finset.mem_union_left _ ?_
                rw [refsInFields]
                exact Finset.mem_union_right _ h
              · exact Finset.mem_union_right _ h
            have hcard := Finset.card_le_card hsub
            have hmul := Nat.mul_le_mul_right (jsDepth spec + 1) hcard
            have hd : jsFieldsDepth rest + 1 ≤ jsFieldsDepth ((k, v) :: rest) := by
              have := Nat.le_max_right (jsDepth v) (jsFieldsDepth rest)
              simp only [jsFieldsDepth]
              omega
            generalize (newRefsFields rest spec p.2).card * (jsDepth spec + 1) = a at hmul ⊢
            generalize (newRefsFields ((k, v) :: rest) spec seen).card *
              (jsDepth spec + 1) = b at hmul hlt
            omega)
          rcases hre : resolveJsonFields n rest spec p.2 with _ | q
          · rw [hre] at hrest; simp at hrest
          · simp

/-! ## Claim theorems -/

/-- **C3.**  For every schema document — any node `v`, spec document
`spec` and in-progress set `seen`, including documents containing a
reference cycle of length ≥ 1 — `resolveRefs` terminates: fuel making
it complete always exists.  And a reference pointer encountered while
it is already in the in-progress set is replaced by the sentinel object
`{$circular: <pointer>}` carrying the original pointer string, instead
of being recursively expanded. -/
theorem resolveRefs_terminates_cycle_sentinel (v spec : JSValue) (seen : List String) :
    (∃ fuel out, resolveRefs fuel v spec seen = some out) ∧
    (∀ fs r fuel, v = JSValue.obj fs →
      lookupField fs "$ref" = some (JSValue.str r) → r ∈ seen →
      resolveRefs (fuel + 1) v spec seen =
        some (JSValue.obj [("$circular", JSValue.str r)], seen)) := by
  constructor
  · refine ⟨jsDepth v + (newRefs v spec seen).card * (jsDepth spec + 1) + 1, ?_⟩
    have h := (resolve_fuel_sufficient
        (jsDepth v + (newRefs v spec seen).card * (jsDepth spec + 1) + 1)).1
        v spec seen (by omega)
    exact Option.isSome_iff_exists.mp h
  · intro fs r fuel hv hl hr
    subst hv
    have hc : seen.contains r = true := by simpa using hr
    rw [resolveRefs, hl]
    simp [hc]
    exact fun h' => absurd hr h'

/-- Witness for C3 at a concrete one-step reference cycle
(`#/a` points at a node that references `#/a` again). -/
theorem resolveRefs_terminates_cycle_sentinel_witness :
    (∃ fuel out,
      resolveRefs fuel (JSValue.obj [("$ref", JSValue.str "#/a")])
        (JSValue.obj [("a", JSValue.obj [("$ref", JSValue.str "#/a")])])
        ["#/a"] = some out) ∧
    resolveRefs 4 (JSValue.obj [("$ref", JSValue.str "#/a")])
        (JSValue.obj [("a", JSValue.obj [("$ref", JSValue.str "#/a")])])
        ["#/a"] =
      some (JSValue.obj [("$circular", JSValue.str "#/a")], ["#/a"]) :=
  ⟨(resolveRefs_terminates_cycle_sentinel
      (JSValue.obj [("$ref", JSValue.str "#/a")])
      (JSValue.obj [("a", JSValue.obj [("$ref", JSValue.str "#/a")])]) ["#/a"]).1,
   (resolveRefs_terminates_cycle_sentinel
      (JSValue.obj [("$ref", JSValue.str "#/a")])
      (JSValue.obj [("a", JSValue.obj [("$ref", JSValue.str "#/a")])]) ["#/a"]).2
      [("$ref", JSValue.str "#/a")] "#/a" 3 rfl rfl (by simp)⟩

/-- **C6 (counterexample).**  The claim says a pointer whose resolution
already completed in a disjoint sibling branch is resolved again
normally when encountered there.  On the code it is not: in
`siblingRefDoc` the first sibling `x` resolves `#/defs/A` normally, and
the second sibling `y` — for which the pointer is *not* an ancestor —
receives the `$circular` sentinel, because the `seen` set is never
pruned after a resolution completes. -/
theorem resolveRefs_sibling_sentinel_counterexample :
    resolveRefs 10 siblingRefDoc siblingRefSpec [] =
      some (JSValue.obj [("x", JSValue.obj [("type", JSValue.str "string")]),
                         ("y", JSValue.obj [("$circular", JSValue.str "#/defs/A")])],
            ["#/defs/A"]) := rfl

/-- **C6 (amended).**  The cycle-detection set does *not* reflect only
the active ancestor chain: it accumulates monotonically over the whole
traversal.  Every pointer present when a (sub)resolution starts is
still present in the final set, and a freshly expanded pointer remains
in the final set after its resolution completes — so a later sibling
occurrence of the same pointer is replaced by the sentinel rather than
resolved again (concrete instance: the counterexample above). -/
theorem resolveRefs_seen_persists (fuel : Nat) (v spec : JSValue) (seen : List String)
    (out : JSValue × List String) (h : resolveRefs fuel v spec seen = some out) :
    seen ⊆ out.2 ∧
    (∀ fs r, v = JSValue.obj fs → lookupField fs "$ref" = some (JSValue.str r) →
      r ∉ seen → r ∈ out.2) := by
  constructor
  · exact (resolve_seen_mono fuel).1 v spec seen out h
  · intro fs r hv hl hr
    subst hv
    cases fuel with
    | zero => simp [resolveRefs] at h
    | succ n =>
      have hc : seen.contains r = false := by simpa using hr
      rw [resolveRefs, hl] at h
      simp only [hc] at h
      simp at h
      have hmono := (resolve_seen_mono n).1 _ _ _ _ h
      exact hmono (List.mem_cons_self r seen)

/-- Witness for C6 (amended): concrete persistence of `#/defs/A` after
its expansion completes, at the sibling document above. -/
theorem resolveRefs_seen_persists_witness :
    ([] : List String) ⊆ ["#/defs/A"] ∧
    "#/defs/A" ∈ (["#/defs/A"] : List String) :=
  ⟨(resolveRefs_seen_persists 10 siblingRefDoc siblingRefSpec []
      (JSValue.obj [("x", JSValue.obj [("type", JSValue.str "string")]),
                    ("y", JSValue.obj [("$circular", JSValue.str "#/defs/A")])],
       ["#/defs/A"]) rfl).1,
   (resolveRefs_seen_persists 10 (JSValue.obj [("$ref", JSValue.str "#/defs/A")])
      siblingRefSpec []
      (JSValue.obj [("type", JSValue.str "string")], ["#/defs/A"]) rfl).2
      [("$ref", JSValue.str "#/defs/A")] "#/defs/A" rfl rfl (by simp)⟩

/-- **C1 (counterexample).**  The claim quantifies over every caller
script and credential and asserts the recipe never contains the
credential value.  It fails when the caller-controlled script text
itself contains the credential: with script and credential both equal
to `SECRET_TOKEN_VALUE`, the submitted recipe contains the credential
as a substring. -/
theorem recipe_contains_credential_counterexample :
    SubstrOf "SECRET_TOKEN_VALUE"
      (codeExecutorSubmission "https://api.cloudflare.com/client/v4"
        "SECRET_TOKEN_VALUE" "acct-1" "SECRET_TOKEN_VALUE").moduleSource :=
  ⟨recipeSegA ++ jsonQuote "https://api.cloudflare.com/client/v4" ++ recipeSegB ++
      jsonQuote "acct-1" ++ recipeSegC,
   recipeSegD, rfl⟩

/-- **C1 (amended).**  The build recipe is a function only of the
configured API base, the account id and the script text: it is
*identical for any two credential values* (the credential is never an
input of recipe construction), so the credential can occur in the
recipe only as text already present in those three inputs; and the
credential is passed solely as the runtime argument of the unit's
`evaluate` (Invoke) call. -/
theorem recipe_independent_of_credential (apiBase code accountId t1 t2 : String) :
    (codeExecutorSubmission apiBase code accountId t1).moduleSource =
      (codeExecutorSubmission apiBase code accountId t2).moduleSource ∧
    (codeExecutorSubmission apiBase code accountId t1).moduleSource =
      workerModuleSource apiBase accountId code ∧
    (codeExecutorSubmission apiBase code accountId t1).invokeArg = t1 :=
  ⟨rfl, rfl, rfl⟩

/-- **C2 (counterexample).**  A script that throws an `Error` whose
message is the empty string produces the collect record
`{result: undefined, err: ""}` — the error field *is* populated — yet
the gateway's truthiness test `if (response.err)` does not fire, so the
gateway returns `undefined` successfully instead of raising a failure
carrying that message, contradicting the claim. -/
theorem gateway_empty_error_counterexample :
    evaluateCollect (ScriptOutcome.thr "") =
      { result := JSValue.undefined, err := some "" } ∧
    gatewayResult (evaluateCollect (ScriptOutcome.thr "")) = .ok JSValue.undefined :=
  ⟨rfl, rfl⟩

/-- **C2 (amended).**  A script body that returns `v` yields
`{result: v, err: undefined}` and the gateway returns `v`; a script
body that throws with message `m` yields `{result: undefined, err: m}`
(result unpopulated), and — provided `m` is nonempty — the gateway
raises a failure carrying `m`.  The two outcomes are mutually exclusive
in every case at the record level: the error field is unpopulated
exactly for the return outcome.  (When `m = ""` the gateway instead
returns `undefined`, per the counterexample.) -/
theorem gateway_collect_exclusive (v : JSValue) (m : String) (o : ScriptOutcome) :
    evaluateCollect (.ret v) = { result := v, err := none } ∧
    gatewayResult (evaluateCollect (.ret v)) = .ok v ∧
    evaluateCollect (.thr m) = { result := .undefined, err := some m } ∧
    (m ≠ "" → gatewayResult (evaluateCollect (.thr m)) = .error m) ∧
    ((evaluateCollect o).err = none ↔ ∃ w, o = .ret w) := by
  refine ⟨rfl, rfl, rfl, ?_, ?_⟩
  · intro hm
    have hemp : m.isEmpty = false := by
      rcases hb : m.isEmpty with _ | _
      · rfl
      · exact absurd ((String.isEmpty_iff m).mp hb) hm
    simp [evaluateCollect, gatewayResult, hemp]
  · cases o <;> simp [evaluateCollect]

/-- Witness for C2 (amended) at a concrete throw with nonempty message
and a concrete successful return. -/
theorem gateway_collect_exclusive_witness :
    gatewayResult (evaluateCollect (.thr "boom")) = .error "boom" ∧
    gatewayResult (evaluateCollect (.ret (JSValue.num 42))) = .ok (JSValue.num 42) :=
  ⟨(gateway_collect_exclusive (JSValue.num 42) "boom"
      (.ret (JSValue.num 42))).2.2.2.1 (by decide),
   (gateway_collect_exclusive (JSValue.num 42) "boom"
      (.ret (JSValue.num 42))).2.1⟩

/-- The code's integer token estimate agrees with the mathematical
ceiling of `length / 4`. -/
theorem mathCeilDiv_four_eq_ceil (n : Nat) :
    ((mathCeilDiv n 4 : Nat) : ℤ) = ⌈(n : ℚ) / 4⌉ := by
  have hq4 : mathCeilDiv n 4 = (n + 3) / 4 := by
    rw [mathCeilDiv]
    omega
  rw [hq4]
  set q := (n + 3) / 4 with hq
  have h2 : n ≤ 4 * q := by omega
  have h3 : 4 * q ≤ n + 3 := by omega
  rw [eq_comm, Int.ceil_eq_iff]
  constructor
  · rw [lt_div_iff₀ (by norm_num : (0 : ℚ) < 4)]
    have hc : ((4 * q : ℕ) : ℚ) ≤ ((n + 3 : ℕ) : ℚ) := by exact_mod_cast h3
    push_cast at hc ⊢
    linarith
  · rw [div_le_iff₀ (by norm_num : (0 : ℚ) < 4)]
    have hc : ((n : ℕ) : ℚ) ≤ ((4 * q : ℕ) : ℚ) := by exact_mod_cast h2
    push_cast at hc ⊢
    linarith

/-- **C4.**  For every input value whose serialization is defined:
text of length ≤ 24000 characters passes through `truncateResponse`
unchanged; longer text yields the first 24000 characters followed by
the marker line, whose reported token estimate is the code's
`Math.ceil(originalLength / 4)` — computed from the *untruncated*
length and provably equal to the mathematical ceiling — together with
the configured limit of 6000 tokens, rendered `6,000`. -/
theorem truncateResponse_spec (content : JSValue) (t : String)
    (h : serializeContent content = some t) :
    (t.length ≤ 24000 → truncateResponse content = some t) ∧
    (24000 < t.length →
      truncateResponse content =
        some (t.take 24000 ++ "\n\n--- TRUNCATED ---\nResponse was ~" ++
          toLocaleString (mathCeilDiv t.length 4) ++ " tokens (limit: " ++
          toLocaleString 6000 ++ "). Use more specific queries to reduce response size.") ∧
      ((mathCeilDiv t.length 4 : Nat) : ℤ) = ⌈(t.length : ℚ) / 4⌉ ∧
      toLocaleString 6000 = "6,000") := by
  constructor
  · intro hle
    rw [truncateResponse, h, Option.map_some']
    rw [truncateText, if_pos (by simpa [MAX_CHARS, MAX_TOKENS, CHARS_PER_TOKEN] using hle)]
  · intro hgt
    refine ⟨?_, mathCeilDiv_four_eq_ceil t.length, rfl⟩
    rw [truncateResponse, h, Option.map_some']
    rw [truncateText, if_neg (by simp [MAX_CHARS, MAX_TOKENS, CHARS_PER_TOKEN]; omega)]
    rfl

/-- Witness for C4 at a short concrete string (the pass-through case). -/
theorem truncateResponse_spec_witness :
    truncateResponse (JSValue.str "ok") = some "ok" :=
  (truncateResponse_spec (JSValue.str "ok") "ok" rfl).1 (by decide)

/-- **C9 (counterexample).**  `truncateResponse` is not total: on the
input `undefined`, `JSON.stringify` yields no string, and the source's
subsequent `text.length` access throws a `TypeError` (modelled by
`none`) — the function does not return a string on every input. -/
theorem truncateResponse_undefined_counterexample :
    truncateResponse JSValue.undefined = none := rfl

/-- **C9 (amended).**  `truncateResponse` is a pure function that
returns a string for every input value *that has a serialization*:
every modelled JavaScript value except `undefined` (circular structures
cannot be represented in this tree model; in the source they likewise
make `JSON.stringify` throw).  On `undefined` it fails with the
`TypeError` of the counterexample. -/
theorem truncateResponse_total_amended (v : JSValue) (h : v ≠ JSValue.undefined) :
    ∃ s, truncateResponse v = some s := by
  have hs : ∃ t, serializeContent v = some t := by
    cases v with
    | undefined => exact absurd rfl h
    | null => exact ⟨_, rfl⟩
    | bool b => exact ⟨_, rfl⟩
    | num n => exact ⟨_, rfl⟩
    | str s => exact ⟨_, rfl⟩
    | arr xs =>
      cases xs with
      | nil => exact ⟨_, rfl⟩
      | cons a rest => exact ⟨_, rfl⟩
    | obj fs =>
      have hsome : (jsonStringifyIndent "" (JSValue.obj fs)).isSome := by
        rw [jsonStringifyIndent]
        rcases jsonStringifyPairs ("" ++ "  ") fs with _ | ⟨p, ps⟩ <;> simp
      exact Option.isSome_iff_exists.mp hsome
  obtain ⟨t, ht⟩ := hs
  exact ⟨truncateText t, by rw [truncateResponse, ht, Option.map_some']⟩

/-- Witness for C9 (amended) at a concrete defined value. -/
theorem truncateResponse_total_amended_witness :
    ∃ s, truncateResponse (JSValue.num 42) = some s :=
  truncateResponse_total_amended (JSValue.num 42) (fun hc => JSValue.noConfusion hc)

/-- **C7.**  Inside the execution unit, for every upstream HTTP
response whose content type is not JSON: on a success status (200–299)
the injected `cloudflare.request` capability returns the response body
as plain text (wrapped in the `{success: true, result: <text>}`
envelope the capability hands back); on a failure status it raises an
error whose message embeds the HTTP status code and the body text. -/
theorem request_nonjson_spec (resp : HttpResponse)
    (hct : containsSubstr resp.contentType "application/json" = false) :
    (responseOk resp.status = true →
      handleCloudflareResponse resp =
        .ok (JSValue.obj [("success", JSValue.bool true),
                          ("result", JSValue.str resp.textBody)])) ∧
    (responseOk resp.status = false →
      handleCloudflareResponse resp =
        .error ("Cloudflare API error: " ++ toString resp.status ++ " " ++ resp.textBody)) := by
  constructor <;> intro hok <;> simp [handleCloudflareResponse, hct, hok]

/-- Witness for C7 at a concrete successful and a concrete failing
non-JSON response. -/
theorem request_nonjson_spec_witness :
    handleCloudflareResponse
        { status := 200, contentType := "text/plain", textBody := "kv-value",
          jsonBody := JSValue.undefined } =
      .ok (JSValue.obj [("success", JSValue.bool true),
                        ("result", JSValue.str "kv-value")]) ∧
    handleCloudflareResponse
        { status := 404, contentType := "text/plain", textBody := "not found",
          jsonBody := JSValue.undefined } =
      .error "Cloudflare API error: 404 not found" :=
  ⟨(request_nonjson_spec
      { status := 200, contentType := "text/plain", textBody := "kv-value",
        jsonBody := JSValue.undefined } rfl).1 rfl,
   (request_nonjson_spec
      { status := 404, contentType := "text/plain", textBody := "not found",
        jsonBody := JSValue.undefined } rfl).2 rfl⟩

/-- **C8.**  End-to-end: a caller script that invokes the proxied
request capability against a path whose upstream JSON envelope is
`{success: false, errors: [{code: 10000, message: "Authentication
error"}]}` makes the `execute` tool return the textual payload
`Error: Cloudflare API error: 10000: Authentication error` with the
error flag set — the fault is converted at every boundary, never
propagated as an unhandled crash. -/
theorem execute_auth_error_end_to_end :
    executeToolText
        { status := 200, contentType := "application/json", textBody := "",
          jsonBody := JSValue.obj
            [("success", JSValue.bool false),
             ("errors", JSValue.arr
               [JSValue.obj [("code", JSValue.num 10000),
                             ("message", JSValue.str "Authentication error")]])] } =
      ("Error: Cloudflare API error: 10000: Authentication error", true) := rfl

/-- **C5 (counterexample).**  The claim says a one-element account list
in a recognized successful envelope makes the resolver succeed with
that account's id.  On the code, a one-element list whose single
account lacks a truthy id (here: no `id` field at all) falls through
`data.result[0]?.id` into the ambiguous-account failure path instead of
succeeding. -/
theorem resolveAccountId_single_no_id_counterexample :
    resolveAccountId
        (JSValue.obj [("success", JSValue.bool true),
                      ("result", JSValue.arr [JSValue.obj [("name", JSValue.str "Acme")]]),
                      ("errors", JSValue.arr [])]) =
      .error "Multiple Cloudflare accounts found. Provide account_id to select one. Found: unknown (Acme)" := rfl

/-- **C5 (amended).**  For every recognized successful accounts
envelope: an empty result list fails with the no-account-found error; a
one-element list whose account has a *truthy* id (present and nonempty)
succeeds with that id; a list of more than one account — or a
one-element list whose account id is not truthy — fails with the
ambiguous-account error whose message enumerates at most the first 5
candidates, each formatted `id (name)` (missing ids rendered
`unknown`, missing names empty), joined by commas. -/
theorem resolveAccountId_spec (data : JSValue) (xs : List JSValue)
    (hsucc : jsTruthy (jsGet data "success") = true)
    (hres : jsGet data "result" = JSValue.arr xs) :
    (xs = [] → resolveAccountId data = .error "No Cloudflare accounts found for this token.") ∧
    (∀ a, xs = [a] → jsTruthy (jsGet a "id") = true →
      resolveAccountId data = .ok (jsGet a "id")) ∧
    ((1 < xs.length ∨ ∃ a, xs = [a] ∧ jsTruthy (jsGet a "id") = false) →
      resolveAccountId data =
        .error ("Multiple Cloudflare accounts found. Provide account_id to select one. Found: "
          ++ accountSummary xs)) ∧
    ((xs.take 5).map accountSummaryEntry).length ≤ 5 := by
  refine ⟨?_, ?_, ?_, ?_⟩
  · intro hnil
    subst hnil
    rw [resolveAccountId, hres]
    simp [hsucc]
  · intro a hone hid
    subst hone
    rw [resolveAccountId, hres]
    simp [hsucc, hid]
  · intro hcase
    rw [resolveAccountId, hres]
    rcases hcase with hgt | ⟨a, hone, hid⟩
    · have h0 : ¬ xs.length = 0 := by omega
      have h1 : ¬ xs.length = 1 := by omega
      simp [hsucc, h0, h1]
    · subst hone
      simp [hsucc, hid]
  · calc ((xs.take 5).map accountSummaryEntry).length
        = (xs.take 5).length := List.length_map _ _
      _ ≤ 5 := by
          rw [List.length_take]
          omega

/-- Witness for C5 (amended): a single account with a present nonempty
id resolves to that id. -/
theorem resolveAccountId_spec_witness :
    resolveAccountId
        (JSValue.obj [("success", JSValue.bool true),
                      ("result", JSValue.arr
                        [JSValue.obj [("id", JSValue.str "acc-123"),
                                      ("name", JSValue.str "Main")]]),
                      ("errors", JSValue.arr [])]) =
      .ok (JSValue.str "acc-123") :=
  (resolveAccountId_spec
      (JSValue.obj [("success", JSValue.bool true),
                    ("result", JSValue.arr
                      [JSValue.obj [("id", JSValue.str "acc-123"),
                                    ("name", JSValue.str "Main")]]),
                    ("errors", JSValue.arr [])])
      [JSValue.obj [("id", JSValue.str "acc-123"), ("name", JSValue.str "Main")]]
      rfl rfl).2.1
    (JSValue.obj [("id", JSValue.str "acc-123"), ("name", JSValue.str "Main")])
    rfl rfl

/-- **C10.**  If the upstream envelope reports success but its
`result` field is missing or not an array, `resolveAccountId` fails
with the same `No Cloudflare accounts found for this token.` error as
the empty-list case — not with an upstream-error failure. -/
theorem resolveAccountId_nonarray_result (data : JSValue)
    (hsucc : jsTruthy (jsGet data "success") = true)
    (hres : ∀ xs, jsGet data "result" ≠ JSValue.arr xs) :
    resolveAccountId data = .error "No Cloudflare accounts found for this token." := by
  cases hr : jsGet data "result" with
  | arr xs => exact absurd hr (hres xs)
  | undefined => rw [resolveAccountId, hr]; simp [hsucc]
  | null => rw [resolveAccountId, hr]; simp [hsucc]
  | bool b => rw [resolveAccountId, hr]; simp [hsucc]
  | num n => rw [resolveAccountId, hr]; simp [hsucc]
  | str s => rw [resolveAccountId, hr]; simp [hsucc]
  | obj fs => rw [resolveAccountId, hr]; simp [hsucc]

/-- Witness for C10 at a successful envelope lacking the `result`
field entirely. -/
theorem resolveAccountId_nonarray_result_witness :
    resolveAccountId (JSValue.obj [("success", JSValue.bool true)]) =
      .error "No Cloudflare accounts found for this token." :=
  resolveAccountId_nonarray_result (JSValue.obj [("success", JSValue.bool true)])
    rfl (fun _ h => JSValue.noConfusion h)
